import Mathlib

/-
Verification development for the unlearning engine in `src/main.py` of
lorenzoorsingher/TA_Project.

Shallow embedding conventions:
- tensors of scalars are `List ℚ`, integer index tensors are `List ℤ`,
  label tensors are `List ℕ`;
- the neural model and the cross-entropy criterion are external numeric
  collaborators: a batch's per-example losses appear as a `List ℚ` (or
  a function producing one), and a model output row as a `List ℚ` of
  class scores;
- in-place tensor mutation (e.g. `target[which_is_in] = ...`) is modelled
  by explicit state passing: the function returns the post-state of the
  mutated tensor;
- stochastic draws (`torch.randint`) become explicit list parameters with
  their range constraint as a hypothesis.
-/

namespace TAProject

/-- Mean of a list of rationals, embedding `tensor.mean()`. An empty list
gives `0` (division by zero in ℚ). -/
def meanQ (l : List ℚ) : ℚ := l.sum / (l.length : ℚ)

/-- Embeds `(idx.unsqueeze(1) == forget_tensor).any(dim=1)` from
`src/main.py` lines 18-19 and 36-37: for each identity index in the batch,
whether it equals any element of the forget index set. -/
def whichIsIn (idx forget : List ℤ) : List Bool :=
  idx.map (fun i => forget.any (fun f => f == i))

/-- Embeds the label replacement of `rand_label` (`src/main.py` lines
20-22): `rand_targets = (target + r) % C` and
`target[which_is_in] = rand_targets[which_is_in]`, where `r` is the list
of random draws from `torch.randint(1, C, target.shape)`. Returns the
post-state of the `target` tensor. -/
def randLabelTargets (target r : List ℕ) (C : ℕ) (idx forget : List ℤ) : List ℕ :=
  List.zipWith (fun tr m => if m then (tr.1 + tr.2) % C else tr.1)
    (target.zip r) (whichIsIn idx forget)

/-- Result of `rand_label` (`src/main.py` lines 15-28) under explicit
state passing: the mutated `target` tensor and the returned scalar loss. -/
structure RandLabelResult where
  targetAfter : List ℕ
  loss : ℚ

/-- Embeds `rand_label` (`src/main.py` lines 15-28). `lossFn` abstracts
`criterion(model(image), ·)`, the per-example cross-entropy against a
given label tensor (an external numeric collaborator). The function
mutates `target` in place (returned as `targetAfter`) and returns the
mean loss over the replaced labels. -/
def randLabel (lossFn : List ℕ → List ℚ) (target r : List ℕ) (C : ℕ)
    (idx forget : List ℤ) : RandLabelResult :=
  let t := randLabelTargets target r C idx forget
  ⟨t, meanQ (lossFn t)⟩

/-- Embeds `grad_ascent` (`src/main.py` lines 31-41): `perEx` is the
per-example loss tensor `criterion(model(image), target)`; the entries at
forget-member positions are multiplied by `-1` and the mean is returned. -/
def gradAscentLoss (perEx : List ℚ) (idx forget : List ℤ) : ℚ :=
  meanQ (List.zipWith (fun l m => if m then -l else l) perEx (whichIsIn idx forget))

/-- Embeds a single evaluated example: its true label and the model's
output row of class scores `model(image)` for it (the model itself is an
external numeric collaborator, so its outputs appear as data). -/
structure Example where
  label : ℕ
  output : List ℚ

/-- Helper for `idxOfMax`: scan for the first index of the maximum. -/
def idxOfMaxAux : List ℚ → ℚ → ℕ → ℕ → ℕ
  | [], _, curIdx, _ => curIdx
  | x :: xs, cur, curIdx, off =>
    if cur < x then idxOfMaxAux xs x off (off + 1)
    else idxOfMaxAux xs cur curIdx (off + 1)

/-- Index of the first maximum score of an output row, embedding the
index returned by `outputs.topk(1)` for that row. -/
def idxOfMax : List ℚ → ℕ
  | [] => 0
  | x :: xs => idxOfMaxAux xs x 0 1

/-- Embeds `compute_topk(target, output, 1)` (`src/utils.py` lines
40-46): the number of examples in the batch whose top-1 predicted class
index equals the true label. -/
def computeTopk1 (batch : List Example) : ℕ :=
  batch.countP (fun e => decide (idxOfMax e.output = e.label))

/-- A batch yielded by a loader. -/
abbrev Batch := List Example

/-- One split to evaluate: its name and its batches, embedding a
`(loader, name)` pair of `eval_unlearning`. `len(loader.dataset)` is the
total number of examples over the batches. -/
structure Split where
  name : String
  batches : List Batch

/-- Embeds `len(loader.dataset)` for a split. -/
def splitSize (s : Split) : ℕ := (s.batches.map List.length).sum

/-- Embeds the body of `eval_unlearning` (`src/main.py` lines 98-125).
`lossFn` abstracts the per-example loss `criterion(model(image), target)`
restricted to one example (external numeric collaborator), so a batch's
per-example loss tensor is `b.map lossFn`. The accumulator `totAcc` is
the source's `tot_acc`: it is initialised once before the loop over the
splits and NOT reset between splits; each split adds its batch-wise
top-1 correct counts to the running value, divides by its own size, and
records the quotient as its accuracy. The second component collects, per
split, the values appended by `losses[name].append(loss.mean().item())`:
one batch-mean loss per batch. -/
def evalGo (lossFn : Example → ℚ) (totAcc : ℚ) :
    List Split → List (String × ℚ) × List (String × List ℚ)
  | [] => ([], [])
  | s :: rest =>
    let totAcc2 := (totAcc + ((s.batches.map computeTopk1).sum : ℚ)) /
      ((splitSize s : ℕ) : ℚ)
    let r := evalGo lossFn totAcc2 rest
    ((s.name, totAcc2) :: r.1,
     (s.name, s.batches.map (fun b => meanQ (b.map lossFn))) :: r.2)

/-- Embeds `eval_unlearning` (`src/main.py` lines 98-125), whose
`tot_acc` starts at 0. -/
def evalUnlearning (lossFn : Example → ℚ) (splits : List Split) :
    List (String × ℚ) × List (String × List ℚ) :=
  evalGo lossFn 0 splits

/-- Definition following the spec's words for the Evaluator (§4.4:
"accumulate top-1 correct count; final accuracy = correct / split
size"), used for comparison against the source's accumulator. -/
def specSplitAccuracy (batches : List Batch) : ℚ :=
  ((batches.map computeTopk1).sum : ℚ) / (((batches.map List.length).sum : ℕ) : ℚ)

/-- Embeds the Python dict read `accs[name]`. -/
def dictGet (accs : List (String × ℚ)) (n : String) : ℚ :=
  (accs.lookup n).getD 0

/-- Embeds the dict update `accs["forget"] = 1 - accs["forget"]`
(`src/main.py` lines 232 and 316). -/
def invertForget (accs : List (String × ℚ)) : List (String × ℚ) :=
  accs.map (fun p => if p.1 = "forget" then (p.1, 1 - p.2) else p)

/-- Embeds the evaluation-and-report step of the main block
(`src/main.py` lines 225-232 and 309-316): evaluate the four splits in
the order test, forget, retain, val, then invert the forget entry. -/
def reportedAccs (lossFn : Example → ℚ)
    (test forget retain val : List Batch) : List (String × ℚ) :=
  invertForget (evalUnlearning lossFn
    [⟨"test", test⟩, ⟨"forget", forget⟩, ⟨"retain", retain⟩, ⟨"val", val⟩]).1

/-- Embeds the best-tracking state of the main block (`src/main.py`
lines 261-264): `best_test_acc = 0`, `best_test = {}`,
`best_forget_acc = 100`, `best_forget = {}`; the empty dict is the empty
association list. -/
structure BestState where
  bestTestAcc : ℚ
  bestTest : List (String × ℚ)
  bestForgetAcc : ℚ
  bestForget : List (String × ℚ)

/-- Initial best-tracking state (`src/main.py` lines 261-264). -/
def initBest : BestState := ⟨0, [], 100, []⟩

/-- Embeds the per-epoch best-tracking update (`src/main.py` lines
325-335): read `accs["test"]` and `accs["forget"]` from the reported
(already forget-inverted) accuracies and update each best record on
strict improvement. -/
def updateBest (s : BestState) (accs : List (String × ℚ)) : BestState :=
  let testAcc := dictGet accs "test"
  let forgetAcc := dictGet accs "forget"
  let s1 := if testAcc > s.bestTestAcc then
      { s with bestTestAcc := testAcc, bestTest := accs } else s
  if forgetAcc > s1.bestForgetAcc then
    { s1 with bestForgetAcc := forgetAcc, bestForget := accs } else s1

/-- The four loaders' batches used by one end-of-epoch evaluation; the
model state the epoch reached is already folded into the output rows of
the examples. -/
structure EpochEval where
  test : List Batch
  forget : List Batch
  retain : List Batch
  val : List Batch

/-- Embeds the epoch loop's metric flow (`src/main.py` lines 279-335) at
evaluation granularity: per epoch, evaluate the four splits, invert the
forget entry, and update the best records. -/
def runBestTracking (lossFn : Example → ℚ) (epochs : List EpochEval) : BestState :=
  epochs.foldl (fun st e =>
    updateBest st (reportedAccs lossFn e.test e.forget e.retain e.val)) initBest

/-- The hyperparameter grid of `compute_basic_mia` (`src/main.py` lines
78-79) in source iteration order: the outer loop runs `n_est` over
[20, 50, 100], the inner loop runs `criterion` over ["gini", "entropy"]. -/
def miaGrid : List (ℕ × String) :=
  [(20, "gini"), (20, "entropy"), (50, "gini"), (50, "entropy"),
   (100, "gini"), (100, "entropy")]

/-- Embeds the grid search of `compute_basic_mia` (`src/main.py` lines
76-95). Fitting the RandomForestClassifier and scoring it are external
collaborators (sklearn), so `metrics n c` stands for the pair
`(auc, acc)` the freshly fitted model at grid point `(n, c)` yields on
the fixed loss data, with `auc = roc_auc_score(...) * 100` and
`acc = (1 - y_hat) * 100`. The fold is the source's update:
`if acc > best_acc: best_acc = acc; best_auc = auc`, starting from
`best_auc = 0`, `best_acc = 0`, returning `(best_auc, best_acc)`. -/
def computeBasicMia (metrics : ℕ → String → ℚ × ℚ) : ℚ × ℚ :=
  miaGrid.foldl (fun best p =>
    if (metrics p.1 p.2).2 > best.2 then
      ((metrics p.1 p.2).1, (metrics p.1 p.2).2)
    else best) (0, 0)

/-- Definition following the spec's words for the MIAAttacker (§4.5:
"Track the maximum AUC seen and the maximum accuracy seen independently
across the grid"), for comparison with the source's joint update. -/
def miaIndependentMax (metrics : ℕ → String → ℚ × ℚ) : ℚ × ℚ :=
  ((miaGrid.map (fun p => (metrics p.1 p.2).1)).foldl max 0,
   (miaGrid.map (fun p => (metrics p.1 p.2).2)).foldl max 0)

/-- A parameter or gradient tensor, flattened. -/
abbrev Tensor := List ℚ

/-- Named parameters (or their gradient buffers), embedding
`model.named_parameters()` and the mask dict. -/
abbrev Params := List (String × Tensor)

/-- Embeds the gradient masking of the update loop (`src/main.py` lines
298-301): when `USE_MASK` is set, every parameter whose name is in the
mask has its gradient buffer multiplied elementwise by the mask tensor
(`param.grad *= mask[name]`); parameters with names absent from the
mask, and all parameters when masking is off, keep their raw gradients. -/
def applyMask (useMask : Bool) (mask : Params) (grads : Params) : Params :=
  if useMask then
    grads.map (fun q =>
      match mask.lookup q.1 with
      | some m => (q.1, List.zipWith (fun g mi => g * mi) q.2 m)
      | none => q)
  else grads

/-- Embeds `optimizer.step()` for `torch.optim.SGD(model.parameters(),
lr=LR)` (`src/main.py` lines 205 and 303): each parameter moves by
`-lr` times its (possibly masked) gradient. -/
def sgdStep (lr : ℚ) (params grads : Params) : Params :=
  List.zipWith (fun p g => (p.1, List.zipWith (fun x gx => x - lr * gx) p.2 g.2))
    params grads

/-- Embeds the inner batch loop of the masked update (`src/main.py`
lines 285-304): per batch, compute gradients (`gradFn b ps` abstracts
`method(...)` followed by `loss.backward()` — the gradient batch `b`
induces at parameter state `ps`), mask them when enabled, take one SGD
step, and clear the gradient buffers for the next batch. -/
def updateLoop {β : Type} (lr : ℚ) (useMask : Bool) (mask : Params)
    (gradFn : β → Params → Params) : List β → Params → Params
  | [], ps => ps
  | b :: bs, ps =>
    updateLoop lr useMask mask gradFn bs
      (sgdStep lr ps (applyMask useMask mask (gradFn b ps)))

/-- Helper: the boolean any-equality scan over the forget set decides
list membership of the identity index. -/
lemma any_beq_eq_mem (forget : List ℤ) (i : ℤ) :
    (forget.any fun f => f == i) = decide (i ∈ forget) := by
  induction forget with
  | nil => simp
  | cons f fs ih =>
    simp only [List.any_cons, ih, List.mem_cons]
    by_cases h : f = i
    · simp [h, beq_iff_eq]
    · have h2 : ¬i = f := fun hh => h hh.symm
      simp [beq_iff_eq, h, h2]

/-- Helper: the membership mask is the pointwise membership decision. -/
lemma whichIsIn_eq_map (idx forget : List ℤ) :
    whichIsIn idx forget = idx.map (fun i => decide (i ∈ forget)) := by
  unfold whichIsIn
  exact List.map_congr_left (fun i _ => any_beq_eq_mem forget i)

/-- Helper: the membership mask has one entry per example of the batch. -/
lemma whichIsIn_length (idx forget : List ℤ) :
    (whichIsIn idx forget).length = idx.length := by
  simp [whichIsIn]

/-- C6: the per-example forget-membership test used by RandomLabel and
GradientAscent is exact integer equality of the example's identity index
against the forget index set, evaluated per example; in particular with
forget set {3, 7} and batch identity indices [1, 3, 5, 7] the mask is
[false, true, false, true]. -/
theorem forget_membership_mask_exact :
    (∀ (idx forget : List ℤ),
      whichIsIn idx forget = idx.map (fun i => decide (i ∈ forget))) ∧
    whichIsIn [1, 3, 5, 7] [3, 7] = [false, true, false, true] :=
  ⟨whichIsIn_eq_map, by decide⟩

/-- Helper: a shift by `r ∈ [1, C)` modulo `C` never fixes a label. -/
lemma replacement_ne (t ri C : ℕ) (h1 : 1 ≤ ri) (h2 : ri < C) :
    (t + ri) % C ≠ t := by
  intro h
  rcases Nat.lt_or_ge t C with ht | ht
  · have hmod : t % C = (t + ri) % C := by rw [h, Nat.mod_eq_of_lt ht]
    have hdvd : C ∣ ri := by
      have := (Nat.modEq_iff_dvd' (Nat.le_add_right t ri)).mp hmod
      simpa using this
    have := Nat.le_of_dvd (by omega) hdvd
    omega
  · have : (t + ri) % C < C := Nat.mod_lt _ (by omega)
    omega

/-- Helper: length of the replaced-label tensor. -/
lemma randLabelTargets_length (target r : List ℕ) (C : ℕ) (idx forget : List ℤ)
    (hr : r.length = target.length) (hi : idx.length = target.length) :
    (randLabelTargets target r C idx forget).length = target.length := by
  simp only [randLabelTargets, List.length_zipWith, List.length_zip,
    whichIsIn_length, hr, hi]
  omega

/-- Helper: pointwise value of the replaced-label tensor. -/
lemma randLabelTargets_getD (target r : List ℕ) (C : ℕ) (idx forget : List ℤ)
    (hr : r.length = target.length) (hi : idx.length = target.length)
    (i : ℕ) (h : i < target.length) :
    (randLabelTargets target r C idx forget).getD i 0 =
      if idx.getD i 0 ∈ forget then (target.getD i 0 + r.getD i 0) % C
      else target.getD i 0 := by
  have hlen : i < (randLabelTargets target r C idx forget).length := by
    rw [randLabelTargets_length target r C idx forget hr hi]; exact h
  rw [List.getD_eq_getElem _ _ hlen, List.getD_eq_getElem _ _ h,
    List.getD_eq_getElem _ _ (lt_of_lt_of_eq h hi.symm),
    List.getD_eq_getElem _ _ (lt_of_lt_of_eq h hr.symm)]
  simp only [randLabelTargets, whichIsIn_eq_map, List.getElem_zipWith,
    List.getElem_zip, List.getElem_map]
  simp only [decide_eq_true_eq]

/-- C4: under RandomLabel, every example whose identity index is in the
forget set receives a replacement label that differs from its original
label, for every possible draw `r` with entries in `[1, C)`; examples not
in the forget set keep their true labels. -/
theorem rand_label_forget_label_changes
    (target r : List ℕ) (C : ℕ) (idx forget : List ℤ)
    (hr : r.length = target.length) (hi : idx.length = target.length)
    (hrange : ∀ x ∈ r, 1 ≤ x ∧ x < C) :
    ∀ i, i < target.length →
      (idx.getD i 0 ∈ forget →
        (randLabelTargets target r C idx forget).getD i 0 ≠ target.getD i 0) ∧
      (idx.getD i 0 ∉ forget →
        (randLabelTargets target r C idx forget).getD i 0 = target.getD i 0) := by
  intro i h
  rw [randLabelTargets_getD target r C idx forget hr hi i h]
  constructor
  · intro hmem
    rw [if_pos hmem]
    have hri : r.getD i 0 ∈ r := by
      rw [List.getD_eq_getElem _ _ (hr ▸ h)]
      exact List.getElem_mem _
    exact replacement_ne _ _ _ (hrange _ hri).1 (hrange _ hri).2
  · intro hmem
    rw [if_neg hmem]

/-- Witness for C4 at `target = [5, 6]`, `r = [1, 2]`, `C = 3`,
`idx = [3, 4]`, `forget = [3]`. -/
theorem rand_label_forget_label_changes_witness :
    (randLabelTargets [5, 6] [1, 2] 3 [3, 4] [3]).getD 0 0 ≠
      ([5, 6] : List ℕ).getD 0 0 ∧
    (randLabelTargets [5, 6] [1, 2] 3 [3, 4] [3]).getD 1 0 =
      ([5, 6] : List ℕ).getD 1 0 := by
  have h := rand_label_forget_label_changes [5, 6] [1, 2] 3 [3, 4] [3]
    (by decide) (by decide) (by decide)
  exact ⟨(h 0 (by decide)).1 (by decide), (h 1 (by decide)).2 (by decide)⟩

/-- C10: rand_label mutates the caller-provided label tensor in place;
in the explicit-state embedding the post-state `targetAfter` handed back
to the caller holds the replacement label `(label + r) % C` at every
forget-member position and the original label at every other position. -/
theorem rand_label_target_mutation (lossFn : List ℕ → List ℚ)
    (target r : List ℕ) (C : ℕ) (idx forget : List ℤ)
    (hr : r.length = target.length) (hi : idx.length = target.length) :
    (randLabel lossFn target r C idx forget).targetAfter =
      randLabelTargets target r C idx forget ∧
    ∀ i, i < target.length →
      (randLabel lossFn target r C idx forget).targetAfter.getD i 0 =
        if idx.getD i 0 ∈ forget then (target.getD i 0 + r.getD i 0) % C
        else target.getD i 0 := by
  refine ⟨rfl, ?_⟩
  intro i h
  exact randLabelTargets_getD target r C idx forget hr hi i h

/-- Witness for C10 at a concrete batch. -/
theorem rand_label_target_mutation_witness :
    (randLabel (fun _ => [1]) [5, 6] [1, 2] 3 [3, 4] [3]).targetAfter =
      randLabelTargets [5, 6] [1, 2] 3 [3, 4] [3] ∧
    ∀ i, i < ([5, 6] : List ℕ).length →
      (randLabel (fun _ => [1]) [5, 6] [1, 2] 3 [3, 4] [3]).targetAfter.getD i 0 =
        if ([3, 4] : List ℤ).getD i 0 ∈ ([3] : List ℤ) then
          (([5, 6] : List ℕ).getD i 0 + ([1, 2] : List ℕ).getD i 0) % 3
        else ([5, 6] : List ℕ).getD i 0 :=
  rand_label_target_mutation (fun _ => [1]) [5, 6] [1, 2] 3 [3, 4] [3]
    (by decide) (by decide)

/-- C5: under GradientAscent the aggregate loss is the mean of signed
per-example contributions where every forget-member contribution is the
negation of its ordinary loss and every other contribution keeps its
ordinary loss unchanged. -/
theorem grad_ascent_sign_flip (perEx : List ℚ) (idx forget : List ℤ)
    (hi : idx.length = perEx.length) :
    ∃ contribs : List ℚ,
      gradAscentLoss perEx idx forget = meanQ contribs ∧
      contribs.length = perEx.length ∧
      ∀ i, i < perEx.length →
        contribs.getD i 0 =
          if idx.getD i 0 ∈ forget then -(perEx.getD i 0)
          else perEx.getD i 0 := by
  refine ⟨_, rfl, ?_, ?_⟩
  · simp only [List.length_zipWith, whichIsIn_length, hi]
    omega
  · intro i h
    have hlen : i < (List.zipWith (fun l m => if m then -l else l)
        perEx (whichIsIn idx forget)).length := by
      simp only [List.length_zipWith, whichIsIn_length, hi]
      omega
    rw [List.getD_eq_getElem _ _ hlen, List.getD_eq_getElem _ _ h,
      List.getD_eq_getElem _ _ (lt_of_lt_of_eq h hi.symm)]
    simp only [whichIsIn_eq_map, List.getElem_zipWith, List.getElem_map]
    simp only [decide_eq_true_eq]

/-- Witness for C5 at `perEx = [2, 5]`, `idx = [3, 4]`, `forget = [3]`. -/
theorem grad_ascent_sign_flip_witness :
    ∃ contribs : List ℚ,
      gradAscentLoss [2, 5] [3, 4] [3] = meanQ contribs ∧
      contribs.length = ([2, 5] : List ℚ).length ∧
      ∀ i, i < ([2, 5] : List ℚ).length →
        contribs.getD i 0 =
          if ([3, 4] : List ℤ).getD i 0 ∈ ([3] : List ℤ) then
            -(([2, 5] : List ℚ).getD i 0)
          else ([2, 5] : List ℚ).getD i 0 :=
  grad_ascent_sign_flip [2, 5] [3, 4] [3] (by decide)

/-- C2 (code bug): the evaluator's accumulator `tot_acc` is not reset
between splits, so a split's reported accuracy depends on the splits
evaluated before it and can leave [0,1]. With two one-example splits
whose single example is classified correctly, the second split is
reported with accuracy 2, while correct/size for it is 1, and evaluating
it alone reports 1. -/
theorem eval_accuracy_accumulator_bug :
    (evalUnlearning (fun _ => 1)
        [⟨"test", [[⟨0, [1, 0]⟩]]⟩, ⟨"forget", [[⟨0, [1, 0]⟩]]⟩]).1 =
      [("test", 1), ("forget", 2)] ∧
    (evalUnlearning (fun _ => 1) [⟨"forget", [[⟨0, [1, 0]⟩]]⟩]).1 =
      [("forget", 1)] ∧
    specSplitAccuracy [[⟨0, [1, 0]⟩]] = 1 ∧
    ¬((2 : ℚ) ≤ 1) := by
  refine ⟨?_, ?_, ?_, by norm_num⟩ <;>
    norm_num [evalUnlearning, evalGo, splitSize, specSplitAccuracy, computeTopk1,
      idxOfMax, idxOfMaxAux, List.countP, List.countP.go]

/-- Helper: the loss-record component of `evalGo` does not depend on the
accumulator and is the per-split list of batch-mean losses. -/
lemma evalGo_losses (lossFn : Example → ℚ) (splits : List Split) :
    ∀ totAcc : ℚ, (evalGo lossFn totAcc splits).2 =
      splits.map (fun s =>
        (s.name, s.batches.map (fun b => meanQ (b.map lossFn)))) := by
  induction splits with
  | nil => intro totAcc; rfl
  | cons s rest ih =>
    intro totAcc
    simp only [evalGo, List.map_cons, ih]

/-- C3 (amended): for every split evaluated, the loss list returned is
the ordered list of batch-mean losses, one entry per batch; its length
equals the number of batches of the split, not the number of examples. -/
theorem loss_record_per_batch (lossFn : Example → ℚ) (splits : List Split) :
    (evalUnlearning lossFn splits).2 =
      splits.map (fun s =>
        (s.name, s.batches.map (fun b => meanQ (b.map lossFn)))) ∧
    (evalUnlearning lossFn splits).2.map (fun p => p.2.length) =
      splits.map (fun s => s.batches.length) := by
  refine ⟨evalGo_losses lossFn splits 0, ?_⟩
  rw [evalUnlearning, evalGo_losses lossFn splits 0, List.map_map]
  simp

/-- Counterexample for C3 as stated: a split with two batches of two
examples each yields a loss list of length 2 (the number of batches),
not 4 (the split size). -/
theorem loss_record_length_counterexample :
    ((evalUnlearning (fun _ => 1)
        [⟨"forget", [[⟨0, [1, 0]⟩, ⟨0, [1, 0]⟩], [⟨0, [1, 0]⟩, ⟨0, [1, 0]⟩]]⟩]).2.map
      (fun p => (p.1, p.2.length))) = [("forget", 2)] ∧
    splitSize ⟨"forget", [[⟨0, [1, 0]⟩, ⟨0, [1, 0]⟩], [⟨0, [1, 0]⟩, ⟨0, [1, 0]⟩]]⟩ = 4 ∧
    (2 : ℕ) ≠ 4 := by
  refine ⟨?_, ?_, by norm_num⟩ <;>
    norm_num [evalUnlearning, evalGo, splitSize, meanQ]

/-- C8 (code bug): because of the unreset accumulator, the value the
main block reports for the forget split is 1 minus a contaminated
quantity rather than 1 minus the forget split's top-1 accuracy, and the
other splits' reported values are not their raw top-1 accuracies either:
with a correctly-classified one-example test split and a misclassified
one-example forget split, the code reports forget = 0 while
1 − top1 = 1, and reports retain = 2 while its top-1 accuracy is 1. -/
theorem forget_report_inversion_bug :
    dictGet (reportedAccs (fun _ => 1) [[⟨0, [1, 0]⟩]] [[⟨0, [0, 1]⟩]]
      [[⟨0, [1, 0]⟩]] [[⟨0, [1, 0]⟩]]) "forget" = 0 ∧
    1 - specSplitAccuracy [[⟨0, [0, 1]⟩]] = 1 ∧
    dictGet (reportedAccs (fun _ => 1) [[⟨0, [1, 0]⟩]] [[⟨0, [0, 1]⟩]]
      [[⟨0, [1, 0]⟩]] [[⟨0, [1, 0]⟩]]) "retain" = 2 ∧
    specSplitAccuracy [[⟨0, [1, 0]⟩]] = 1 ∧
    (0 : ℚ) ≠ 1 ∧ (2 : ℚ) ≠ 1 := by
  refine ⟨?_, ?_, ?_, ?_, by norm_num, by norm_num⟩ <;>
    · norm_num [reportedAccs, invertForget, evalUnlearning, evalGo,
        splitSize, specSplitAccuracy, computeTopk1, idxOfMax, idxOfMaxAux,
        List.countP, List.countP.go]
      try simp [dictGet, List.lookup]

/-- Helper: the evaluator's four reported raw accuracies exist and the
forget one is nonnegative (a quotient of sums of counts by sizes). -/
lemma evalUnlearning_four (lossFn : Example → ℚ) (t f r v : List Batch) :
    ∃ a1 a2 a3 a4 : ℚ,
      (evalUnlearning lossFn
        [⟨"test", t⟩, ⟨"forget", f⟩, ⟨"retain", r⟩, ⟨"val", v⟩]).1 =
        [("test", a1), ("forget", a2), ("retain", a3), ("val", a4)] ∧
      0 ≤ a2 := by
  refine ⟨_, _, _, _, rfl, ?_⟩
  positivity

/-- Helper: the reported (inverted) forget value never exceeds 1. -/
lemma reported_forget_le_one (lossFn : Example → ℚ) (t f r v : List Batch) :
    dictGet (reportedAccs lossFn t f r v) "forget" ≤ 1 := by
  obtain ⟨a1, a2, a3, a4, heq, ha2⟩ := evalUnlearning_four lossFn t f r v
  unfold reportedAccs
  rw [heq]
  simp [invertForget, dictGet, List.lookup]
  linarith

/-- Helper: one best-tracking update cannot touch the forget record when
the reported forget value is at most 1. -/
lemma updateBest_keeps_forget (s : BestState) (accs : List (String × ℚ))
    (hle : dictGet accs "forget" ≤ 1)
    (hacc : s.bestForgetAcc = 100) (hrec : s.bestForget = []) :
    (updateBest s accs).bestForgetAcc = 100 ∧
    (updateBest s accs).bestForget = [] := by
  unfold updateBest
  have hs1 : (if dictGet accs "test" > s.bestTestAcc then
        { s with bestTestAcc := dictGet accs "test", bestTest := accs }
      else s).bestForgetAcc = 100 ∧
      (if dictGet accs "test" > s.bestTestAcc then
        { s with bestTestAcc := dictGet accs "test", bestTest := accs }
      else s).bestForget = [] := by
    by_cases h1 : dictGet accs "test" > s.bestTestAcc
    · simp [h1, hacc, hrec]
    · simp [h1, hacc, hrec]
  rw [if_neg (by rw [hs1.1]; intro h; linarith)]
  exact hs1

/-- Helper: the best-forget invariant is preserved along the loop. -/
lemma runBest_go (lossFn : Example → ℚ) (epochs : List EpochEval) :
    ∀ s : BestState, s.bestForgetAcc = 100 → s.bestForget = [] →
      (epochs.foldl (fun st e =>
        updateBest st (reportedAccs lossFn e.test e.forget e.retain e.val))
        s).bestForgetAcc = 100 ∧
      (epochs.foldl (fun st e =>
        updateBest st (reportedAccs lossFn e.test e.forget e.retain e.val))
        s).bestForget = [] := by
  induction epochs with
  | nil => intro s h1 h2; exact ⟨h1, h2⟩
  | cons e es ih =>
    intro s h1 h2
    simp only [List.foldl_cons]
    have h := updateBest_keeps_forget s _
      (reported_forget_le_one lossFn e.test e.forget e.retain e.val) h1 h2
    exact ih _ h.1 h.2

/-- C9: with `best_forget_acc` initialised to 100, the guard
`forget_acc > best_forget_acc` never fires: after any number of epochs
the best-forget record is still the initial empty dict and
`best_forget_acc` is still 100, because every epoch's reported forget
value is at most 1 and hence never exceeds 100. -/
theorem best_forget_never_updated (lossFn : Example → ℚ)
    (epochs : List EpochEval) :
    (∀ k, (runBestTracking lossFn (epochs.take k)).bestForget = [] ∧
      (runBestTracking lossFn (epochs.take k)).bestForgetAcc = 100) ∧
    ∀ e : EpochEval,
      ¬(100 < dictGet (reportedAccs lossFn e.test e.forget e.retain e.val)
        "forget") := by
  constructor
  · intro k
    have h := runBest_go lossFn (epochs.take k) initBest rfl rfl
    exact ⟨h.2, h.1⟩
  · intro e
    have h := reported_forget_le_one lossFn e.test e.forget e.retain e.val
    intro hcon
    linarith

/-- Counterexample for C1 as stated: on a synthetic grid whose accuracy
argmax (20, "gini") differs from its AUC argmax, the source returns the
AUC of the accuracy argmax, not the maximum AUC. -/
theorem mia_independent_max_counterexample :
    computeBasicMia
      (fun n _ => if n = 20 then ((1 : ℚ), (10 : ℚ)) else (2, 5)) =
      (1, 10) ∧
    miaIndependentMax
      (fun n _ => if n = 20 then ((1 : ℚ), (10 : ℚ)) else (2, 5)) =
      (2, 10) ∧
    ((1 : ℚ), (10 : ℚ)) ≠ (2, 10) := by
  refine ⟨?_, ?_, by norm_num⟩ <;>
    norm_num [computeBasicMia, miaIndependentMax, miaGrid, max_def]

/-- Helper: the source's fold expressed over the list of metric pairs. -/
lemma computeBasicMia_eq_fold (metrics : ℕ → String → ℚ × ℚ) :
    computeBasicMia metrics =
      (miaGrid.map (fun p => metrics p.1 p.2)).foldl
        (fun best m => if m.2 > best.2 then (m.1, m.2) else best) (0, 0) := by
  rw [List.foldl_map]
  rfl

/-- Helper: the second component of the best-tracking fold is the
running maximum of the accuracies. -/
lemma miaFold_snd (ms : List (ℚ × ℚ)) :
    ∀ b : ℚ × ℚ,
      (ms.foldl (fun best m => if m.2 > best.2 then (m.1, m.2) else best) b).2 =
        (ms.map Prod.snd).foldl max b.2 := by
  induction ms with
  | nil => intro b; rfl
  | cons m rest ih =>
    intro b
    simp only [List.foldl_cons, List.map_cons]
    rw [ih]
    congr 1
    by_cases h : m.2 > b.2
    · rw [if_pos h, max_eq_right (le_of_lt h)]
    · rw [if_neg h, max_eq_left (le_of_not_lt h)]

/-- Helper: the best-tracking fold returns its initial value or one of
the folded pairs. -/
lemma miaFold_mem (ms : List (ℚ × ℚ)) :
    ∀ b : ℚ × ℚ,
      (ms.foldl (fun best m => if m.2 > best.2 then (m.1, m.2) else best) b) = b ∨
      (ms.foldl (fun best m => if m.2 > best.2 then (m.1, m.2) else best) b) ∈ ms := by
  induction ms with
  | nil => intro b; left; rfl
  | cons m rest ih =>
    intro b
    simp only [List.foldl_cons]
    rcases ih (if m.2 > b.2 then (m.1, m.2) else b) with h | h
    · rw [h]
      by_cases hc : m.2 > b.2
      · right
        rw [if_pos hc]
        exact List.mem_cons_self _ _
      · left
        rw [if_neg hc]
    · right
      exact List.mem_cons_of_mem m h

/-- C1 (amended): `best_accuracy` is the maximum of 0 and the grid's
accuracies, while the returned pair as a whole is the `(auc, acc)` pair
of a single grid point (the one whose accuracy achieved that maximum) —
or `(0, 0)` when no grid accuracy is positive — so `best_auc` is the AUC
at the accuracy argmax, not an independently tracked maximum AUC. -/
theorem mia_best_pair_joint (metrics : ℕ → String → ℚ × ℚ) :
    (computeBasicMia metrics).2 =
      (miaGrid.map (fun p => (metrics p.1 p.2).2)).foldl max 0 ∧
    (computeBasicMia metrics = (0, 0) ∨
      ∃ p ∈ miaGrid, metrics p.1 p.2 = computeBasicMia metrics) := by
  constructor
  · rw [computeBasicMia_eq_fold, miaFold_snd, List.map_map]
    rfl
  · rw [computeBasicMia_eq_fold]
    rcases miaFold_mem (miaGrid.map (fun p => metrics p.1 p.2)) (0, 0) with h | h
    · left; exact h
    · right
      obtain ⟨p, hp, hfp⟩ := List.mem_map.mp h
      exact ⟨p, hp, hfp⟩

/-- Helper: multiplying a tensor elementwise by ones of its own length
is the identity. -/
lemma zipWith_mul_ones (l : Tensor) :
    List.zipWith (fun g mi => g * mi) l (List.replicate l.length 1) = l := by
  induction l with
  | nil => rfl
  | cons x xs ih => simp [List.replicate_succ, ih]

/-- Helper: a pointwise-identity map is the identity. -/
lemma map_eq_self {α : Type} (g : α → α) :
    ∀ l : List α, (∀ a ∈ l, g a = a) → l.map g = l := by
  intro l
  induction l with
  | nil => intro _; rfl
  | cons a rest ih =>
    intro h
    simp only [List.map_cons]
    rw [h a (List.mem_cons_self a rest), ih (fun x hx => h x (List.mem_cons_of_mem a hx))]

/-- Helper: masking with all-ones entries leaves the gradients intact. -/
lemma applyMask_ones (mask grads : Params)
    (h : ∀ q ∈ grads, mask.lookup q.1 = some (List.replicate q.2.length 1)) :
    applyMask true mask grads = grads := by
  unfold applyMask
  rw [if_pos rfl]
  apply map_eq_self
  intro q hq
  rw [h q hq]
  simp only [zipWith_mul_ones]

/-- C7: running the masked update loop with masking enabled and a mask
holding an all-ones tensor for every parameter name the gradients use
produces exactly the same parameter states as running it with masking
disabled, for every batch sequence and initial state; and for any mask,
a parameter whose name is absent from the mask keeps its raw gradient. -/
theorem all_ones_mask_noop {β : Type} (lr : ℚ) (mask : Params)
    (gradFn : β → Params → Params)
    (hones : ∀ (b : β) (ps : Params), ∀ q ∈ gradFn b ps,
      mask.lookup q.1 = some (List.replicate q.2.length 1)) :
    (∀ (bs : List β) (ps : Params),
      updateLoop lr true mask gradFn bs ps =
        updateLoop lr false mask gradFn bs ps) ∧
    ∀ (mask2 grads : Params) (i : ℕ), i < grads.length →
      mask2.lookup (grads.getD i ("", [])).1 = none →
      (applyMask true mask2 grads).getD i ("", []) = grads.getD i ("", []) := by
  constructor
  · intro bs
    induction bs with
    | nil => intro ps; rfl
    | cons b bs ih =>
      intro ps
      simp only [updateLoop]
      rw [applyMask_ones mask (gradFn b ps) (hones b ps),
        show applyMask false mask (gradFn b ps) = gradFn b ps from rfl]
      exact ih _
  · intro mask2 grads i hi hnone
    have hlen : i < (applyMask true mask2 grads).length := by
      unfold applyMask
      rw [if_pos rfl, List.length_map]
      exact hi
    rw [List.getD_eq_getElem _ _ hi] at hnone
    rw [List.getD_eq_getElem _ _ hlen, List.getD_eq_getElem _ _ hi]
    simp only [applyMask, if_pos, List.getElem_map]
    rw [hnone]

/-- Witness for C7 at one parameter, an all-ones mask, two batches. -/
theorem all_ones_mask_noop_witness :
    (updateLoop 1 true [("w", [1, 1])] (fun (_ : Unit) _ => [("w", [2, 3])])
        [(), ()] [("w", [5, 7])] =
      updateLoop 1 false [("w", [1, 1])] (fun (_ : Unit) _ => [("w", [2, 3])])
        [(), ()] [("w", [5, 7])]) ∧
    (applyMask true [] [("w", [2, 3])]).getD 0 ("", []) =
      ([("w", [2, 3])] : Params).getD 0 ("", []) := by
  have h := all_ones_mask_noop 1 [("w", [1, 1])]
    (fun (_ : Unit) _ => [("w", [2, 3])])
    (by
      intro b ps q hq
      simp only [List.mem_singleton] at hq
      subst hq
      rfl)
  exact ⟨h.1 [(), ()] [("w", [5, 7])], h.2 [] [("w", [2, 3])] 0 (by decide) rfl⟩

end TAProject
